import Mathlib

/-!
Shallow embedding of the `fits-reader` FITS decoder
(`src/fits-structure.ts`, `src/primary-hdu.ts`).

Conventions of the embedding:
* a Node `Buffer` is a `List Nat` of byte values (0..255);
* JavaScript strings obtained from `Buffer.toString()` are `List Char`
  (byte-to-char mapping; this coincides with Node's UTF-8 decoding on
  ASCII bytes, so universally quantified theorems carry an ASCII
  hypothesis where the buffer contents are unconstrained);
* a `throw` site becomes `Except.error` with a `FitsError` constructor
  per throw site of the source;
* JavaScript numbers are modelled exactly: integers/sizes as `Int`
  (с `Option Int` where `NaN` can flow, `none` = NaN), decoded samples
  and statistics as `ℚ` wrapped in `JsNum` (which also carries NaN and
  the infinities), array lookups that can yield `undefined` as `Option`;
  the rational model coincides with IEEE doubles on every value
  exercised by the theorems below (small integers, exact divisions);
* the source's `stdDev` field (floating square root) is not modelled;
  no claim mentions it.

The two unbounded source loops (`getRawHeaders`' block scan and
`PrimaryHDU.load`'s chain walk) are modelled with explicit fuel large
enough for any finite buffer; fuel exhaustion is a distinguished error
that the theorems show is not reached on the inputs they speak about.
-/

set_option maxRecDepth 100000

/-- Block size of a FITS file: `FitsStructure.BLOCK_SIZE = 2880`. -/
def BLOCK_SIZE : Nat := 2880

/-- Header record size: `FitsStructure.RECORD_SIZE = 80`. -/
def RECORD_SIZE : Nat := 80

/-- Errors, one constructor per `throw` site of the source that the
claims can reach, plus `outOfFuel` marking a loop that would not have
terminated (reported instead of spinning forever). -/
inductive FitsError where
  /-- `MetaDataParser.checkEntry`: entry is not 80 characters (carries the length). -/
  | malformedRecord (len : Nat)
  /-- `FitsStructure.getMetadataValue`: keyword absent (or empty, which is falsy). -/
  | missingKeyword (key : List Char)
  /-- `FitsStructure.numAxis`: catch-all rethrow `NAXIS keyword missing from metadata`. -/
  | naxisMissing
  /-- `FitsStructure.sizeAxis`: `Cannot get index ... from data with ... axis`. -/
  | invalidAxisIndex (index : Nat)
  /-- `FitsStructure.bitsPerPixel`: `Invalid pixel data type ...`. -/
  | invalidPixelType (v : List Char)
  /-- `FitsStructure.getDataValues` default switch branch: `throw new Error(dataType)`. -/
  | unsupportedDataType (v : List Char)
  /-- Node buffer read (`readInt32BE`/`readFloatBE`) past the end of the buffer. -/
  | rangeError
  /-- Fuel exhausted: the modelled source loop would not terminate. -/
  | outOfFuel
  deriving DecidableEq

/-- JavaScript number results distinguishable from ordinary rationals:
floats that are NaN or infinite. -/
inductive JsNum where
  | num (q : ℚ)
  | nan
  | posInf
  | negInf
  deriving DecidableEq

/-- Decidable equality for `Except` results. -/
instance {ε α : Type} [DecidableEq ε] [DecidableEq α] : DecidableEq (Except ε α) := fun x y =>
  match x, y with
  | .ok a, .ok b =>
    if h : a = b then .isTrue (by rw [h]) else .isFalse (by intro hh; cases hh; exact h rfl)
  | .error a, .error b =>
    if h : a = b then .isTrue (by rw [h]) else .isFalse (by intro hh; cases hh; exact h rfl)
  | .ok _, .error _ => .isFalse (by intro hh; cases hh)
  | .error _, .ok _ => .isFalse (by intro hh; cases hh)

/-- JavaScript division on (exactly representable) numbers: division by
zero yields NaN or a signed infinity. -/
def jsDiv (a b : ℚ) : JsNum :=
  if b = 0 then (if a = 0 then .nan else if 0 < a then .posInf else .negInf)
  else .num (a / b)

/-- Characters treated as whitespace by JavaScript's `String.trim` in
the ASCII range: tab, LF, VT, FF, CR, space. -/
def isJsSpace (c : Char) : Bool :=
  c.toNat = 9 || c.toNat = 10 || c.toNat = 11 || c.toNat = 12 || c.toNat = 13 || c.toNat = 32

/-- JavaScript `String.trim` (ASCII range). -/
def jsTrim (l : List Char) : List Char :=
  ((l.dropWhile isJsSpace).reverse.dropWhile isJsSpace).reverse

/-- JavaScript `String.startsWith`. -/
def listStartsWith : List Char → List Char → Bool
  | [], _ => true
  | _ :: _, [] => false
  | p :: ps, c :: cs => p = c && listStartsWith ps cs

/-- Decimal digit value of a character, if it is a digit. -/
def digitVal (c : Char) : Option Nat :=
  if 48 ≤ c.toNat ∧ c.toNat ≤ 57 then some (c.toNat - 48) else none

/-- Value of a maximal leading run of decimal digits; `none` when there
is no leading digit. -/
def leadingDigits : List Char → Option Nat → Option Nat
  | [], acc => acc
  | c :: cs, acc =>
    match digitVal c with
    | some d => leadingDigits cs (some ((acc.getD 0) * 10 + d))
    | none => acc

/-- JavaScript `parseInt` (radix 10; the `0x` prefix form is not
modelled — every value parsed in the theorems below is decimal).
`none` models NaN. -/
def jsParseInt (l : List Char) : Option Int :=
  match l.dropWhile isJsSpace with
  | '-' :: rest => (leadingDigits rest none).map (fun n => -(n : Int))
  | '+' :: rest => (leadingDigits rest none).map (fun n => (n : Int))
  | rest => (leadingDigits rest none).map (fun n => (n : Int))

/-- Normalize a possibly negative JavaScript typed-array index against a
length: negative indexes count from the end, and indexes clamp to the
length (`TypedArray.subarray` semantics). -/
def normIdx (len : Nat) (i : Int) : Nat :=
  if i < 0 then (len + i).toNat else min i.toNat len

/-- `Buffer.subarray(start, end)` with nonnegative `Nat` arguments. -/
def subarrN (raw : List Nat) (s e : Nat) : List Nat :=
  (raw.drop s).take (e - s)

/-- `Buffer.subarray(start, end)` with JavaScript index normalization. -/
def jsSubarray (raw : List Nat) (s e : Int) : List Nat :=
  (raw.drop (normIdx raw.length s)).take (normIdx raw.length e - normIdx raw.length s)

/-- Bytes of a buffer slice decoded to characters (`Buffer.toString`);
agrees with Node's UTF-8 decoding on ASCII bytes. -/
def bytesToChars (b : List Nat) : List Char :=
  b.map Char.ofNat

/-- The keyword map: insertion-ordered association list with
`Map.set` replace-in-place semantics. -/
abbrev HeaderMap := List (List Char × List Char)

/-- JavaScript `Map.set`: update in place if present, else append. -/
def mapSet : HeaderMap → List Char → List Char → HeaderMap
  | [], k, v => [(k, v)]
  | (k', v') :: rest, k, v =>
    if k' = k then (k, v) :: rest else (k', v') :: mapSet rest k v

/-- JavaScript `Map.get`. -/
def mapGet (m : HeaderMap) (k : List Char) : Option (List Char) :=
  (m.find? (fun p => decide (p.1 = k))).map (·.2)

/-- Commentary map: keyword to its ordered fragment log. -/
abbrev CommMap := List (List Char × List (List Char))

/-- Append a commentary fragment to a keyword's ordered fragment list
(`commentaryHeaders` update in `getRawHeaders`). -/
def commAdd : CommMap → List Char → List Char → CommMap
  | [], k, f => [(k, [f])]
  | (k', fs) :: rest, k, f =>
    if k' = k then (k', fs ++ [f]) :: rest else (k', fs) :: commAdd rest k f

/-- Character-list literals for the keywords the source mentions. -/
def endChars : List Char := ['E', 'N', 'D']

def naxisChars : List Char := ['N', 'A', 'X', 'I', 'S']

def bitpixChars : List Char := ['B', 'I', 'T', 'P', 'I', 'X']

def xtensionChars : List Char := ['X', 'T', 'E', 'N', 'S', 'I', 'O', 'N']

def imageChars : List Char := ['i', 'm', 'a', 'g', 'e']

def commentChars : List Char := ['C', 'O', 'M', 'M', 'E', 'N', 'T']

def historyChars : List Char := ['H', 'I', 'S', 'T', 'O', 'R', 'Y']

def continueChars : List Char := ['C', 'O', 'N', 'T', 'I', 'N', 'U', 'E']

def u8Chars : List Char := ['8']

def s16Chars : List Char := ['1', '6']

def s32Chars : List Char := ['3', '2']

def s64Chars : List Char := ['6', '4']

def f32Chars : List Char := ['-', '3', '2']

def f64Chars : List Char := ['-', '6', '4']

/-- `MetaDataParser.isValidKeyword`: first character not a space and
width exactly 8. -/
def isValidKeyword (key : List Char) : Bool :=
  (key.headD ' ' != ' ') && (key.length == 8)

/-- `MetaDataParser.isCommentaryKeyword`. -/
def isCommentaryKeyword (key : List Char) : Bool :=
  key = commentChars || key = historyChars || key = continueChars

/-- Value field of a record (`MetaDataParser.getValue` body after
`checkEntry`): everything after byte 9, cut at the first `/`, trimmed. -/
def getValueBody (entry : List Char) : List Char :=
  jsTrim ((entry.drop 9).takeWhile (fun c => c ≠ '/'))

/-- State threaded through `getRawHeaders`' scanning loop: the raw
record list, the `found` flag, and the two keyword maps. -/
structure ScanState where
  metadata : List (List Char)
  found : Bool
  headers : HeaderMap
  commentary : CommMap
  deriving DecidableEq

/-- Process one 80-character record exactly as the `forEach` body of
`getRawHeaders`: update `found`, push the raw record, then
`getKey`/`getValue` (whose `checkEntry` throws on a record that is not
80 characters). -/
def processEntry (st : ScanState) (entry : List Char) : Except FitsError ScanState :=
  let found := st.found || listStartsWith endChars entry
  let metadata := st.metadata ++ [entry]
  if entry.length = 80 then
    let key := entry.take 8
    if isValidKeyword key then
      let k := jsTrim key
      if isCommentaryKeyword k then
        .ok ⟨metadata, found, st.headers, commAdd st.commentary k (entry.drop 8)⟩
      else
        .ok ⟨metadata, found, mapSet st.headers k (getValueBody entry), st.commentary⟩
    else
      .ok ⟨metadata, found, st.headers, st.commentary⟩
  else
    .error (.malformedRecord entry.length)

/-- Process the records of one block in order (the `block.forEach`). -/
def processRecords (st : ScanState) : List (List Char) → Except FitsError ScanState
  | [] => .ok st
  | r :: rs =>
    match processEntry st r with
    | .error e => .error e
    | .ok st' => processRecords st' rs

/-- `FitsStructure.getDataBlock` (1-based block number). -/
def getDataBlock (raw : List Nat) (blockNum : Nat) : List Nat :=
  subarrN raw ((blockNum - 1) * BLOCK_SIZE) (blockNum * BLOCK_SIZE)

/-- `FitsStructure.getMetadataBlock`: the 36 80-byte records of a block,
decoded to characters (records clip at the end of a short block). -/
def getMetadataBlock (raw : List Nat) (blockNum : Nat) : List (List Char) :=
  (List.range 36).map (fun j =>
    bytesToChars (subarrN (getDataBlock raw blockNum) (j * RECORD_SIZE) (j * RECORD_SIZE + RECORD_SIZE)))

/-- The `while (!found)` loop of `getRawHeaders`, with fuel. -/
def scanLoop (raw : List Nat) : Nat → Nat → ScanState → Except FitsError ScanState
  | 0, _, _ => .error .outOfFuel
  | fuel + 1, blockNum, st =>
    if st.found then .ok st
    else
      match processRecords st (getMetadataBlock raw blockNum) with
      | .error e => .error e
      | .ok st' => scanLoop raw fuel (blockNum + 1) st'

/-- `FitsStructure.getRawHeaders` (returning the whole scan state; the
source memoizes, which is invisible to this pure model except on
buffers where the scan throws midway — no theorem below touches that
region). The fuel covers any finite buffer: the loop either finds `END`
within `ceil(len/2880)` blocks or fails on the first clipped record. -/
def getRawHeaders (raw : List Nat) : Except FitsError ScanState :=
  scanLoop raw (raw.length / BLOCK_SIZE + 2) 1 ⟨[], false, [], []⟩

/-- Is an `Except` a success? -/
def exceptOk {α : Type} : Except FitsError α → Bool
  | .ok _ => true
  | .error _ => false

/-- Keyword lookup through the scanned header (the map part of
`getHeaderMap`); `none` both for a failed scan and an absent keyword. -/
def headerLookup (raw : List Nat) (key : List Char) : Option (List Char) :=
  match getRawHeaders raw with
  | .ok st => mapGet st.headers key
  | .error _ => none

/-- `FitsStructure.getMetadataValue`: throws `missingKeyword` when the
keyword is absent or when the stored value is falsy (the empty
string). -/
def getMetadataValue (raw : List Nat) (key : List Char) : Except FitsError (List Char) :=
  match getRawHeaders raw with
  | .error e => .error e
  | .ok st =>
    match mapGet st.headers key with
    | none => .error (.missingKeyword key)
    | some v => if v = [] then .error (.missingKeyword key) else .ok v

/-- `FitsStructure.numBlocks` on a nonnegative byte count:
`Math.ceil(numBytes / 2880)`. -/
def numBlocksN (numBytes : Nat) : Nat :=
  (numBytes + (BLOCK_SIZE - 1)) / BLOCK_SIZE

/-- `FitsStructure.numBlocks` on a possibly negative byte count. -/
def numBlocksI (numBytes : Int) : Int :=
  Int.fdiv (numBytes + (BLOCK_SIZE - 1)) BLOCK_SIZE

/-- `FitsStructure.getNumHeaderBlocks`. -/
def getNumHeaderBlocks (raw : List Nat) : Except FitsError Nat :=
  (getRawHeaders raw).map (fun st => numBlocksN (st.metadata.length * RECORD_SIZE))

/-- `FitsStructure.numAxis`: parse `NAXIS`, validate 0 ≤ n ≤ 999; any
failure (missing keyword, NaN, out of range) is caught and rethrown as
the single `naxisMissing` error, exactly as the source's `try/catch`. -/
def numAxis (raw : List Nat) : Except FitsError Int :=
  match getMetadataValue raw naxisChars with
  | .error _ => .error .naxisMissing
  | .ok v =>
    match jsParseInt v with
    | none => .error .naxisMissing
    | some n => if n < 0 ∨ 999 < n then .error .naxisMissing else .ok n

/-- Decimal key `NAXIS<index>`. -/
def naxisKey (index : Nat) : List Char :=
  naxisChars ++ (toString index).toList

/-- `FitsStructure.sizeAxis`: requires a positive axis count, then
parses `NAXIS<index>` without validation (`none` models a NaN length). -/
def sizeAxis (raw : List Nat) (index : Nat) : Except FitsError (Option Int) := do
  let n ← numAxis raw
  if n ≤ 0 then .error (.invalidAxisIndex index)
  else
    let v ← getMetadataValue raw (naxisKey index)
    pure (jsParseInt v)

/-- `FitsStructure.pixelDataType`: the raw `BITPIX` string (the source
casts it to the enum without checking). -/
def pixelDataType (raw : List Nat) : Except FitsError (List Char) :=
  getMetadataValue raw bitpixChars

/-- `FitsStructure.bitsPerPixel`: membership in the closed enum set,
then `Math.abs(parseInt(dataType))`. The `getD 0` default is never
taken: every member of the set parses. -/
def bitsPerPixel (raw : List Nat) : Except FitsError Nat := do
  let dt ← pixelDataType raw
  if dt = u8Chars ∨ dt = s16Chars ∨ dt = s32Chars ∨ dt = s64Chars ∨ dt = f32Chars ∨ dt = f64Chars then
    pure ((jsParseInt dt).getD 0).natAbs
  else
    .error (.invalidPixelType dt)

/-- NaN-propagating multiplication (`none` = NaN). -/
def optMul (a b : Option Int) : Option Int :=
  match a, b with
  | some x, some y => some (x * y)
  | _, _ => none

/-- The `for (let i = 1; i <= numAxis; i++)` product loop of
`getDataSize`, counting down `count` remaining axes from index `i`. -/
def axisLoop (raw : List Nat) : Nat → Nat → Option Int → Except FitsError (Option Int)
  | 0, _, acc => .ok acc
  | count + 1, i, acc => do
    let len ← sizeAxis raw i
    axisLoop raw count (i + 1) (optMul acc len)

/-- `FitsStructure.getDataSize`: 0 when `NAXIS = 0`, else
`(bitsPerPixel/8) × ∏ sizeAxis(i)` (NaN-propagating). -/
def getDataSize (raw : List Nat) : Except FitsError (Option Int) := do
  let n ← numAxis raw
  if n = 0 then pure (some 0)
  else do
    let bpp ← bitsPerPixel raw
    axisLoop raw n.toNat 1 (some ((bpp : Int) / 8))

/-- `FitsStructure.getNumDataBlocks`. -/
def getNumDataBlocks (raw : List Nat) : Except FitsError (Option Int) :=
  (getDataSize raw).map (Option.map numBlocksI)

/-- `FitsStructure.getNumStructureBytes` (`none` = NaN). -/
def getNumStructureBytes (raw : List Nat) : Except FitsError (Option Int) := do
  let hb ← getNumHeaderBlocks raw
  let db? ← getNumDataBlocks raw
  pure (db?.map (fun db => ((hb : Int) + db) * (BLOCK_SIZE : Int)))

/-- `FitsStructure.getNextStructure`: the remaining view from the next
structure's offset, or `none` when no bytes remain (a NaN offset
compares false, hence also `none`). A negative offset follows
JavaScript's from-the-end subarray indexing. -/
def getNextStructure (raw : List Nat) : Except FitsError (Option (List Nat)) := do
  let b? ← getNumStructureBytes raw
  match b? with
  | none => pure none
  | some off =>
    if (raw.length : Int) > off then pure (some (raw.drop (normIdx raw.length off)))
    else pure none

/-- The `while (next)` successor walk of `PrimaryHDU.load`, with fuel,
accumulating the `structures` array. -/
def chainAux : Nat → List Nat → List (List Nat) → Except FitsError (List (List Nat))
  | 0, _, _ => .error .outOfFuel
  | fuel + 1, cur, acc => do
    let nxt? ← getNextStructure cur
    match nxt? with
    | none => pure acc
    | some nxt => chainAux fuel nxt (acc ++ [nxt])

/-- `PrimaryHDU.load`'s `structures` array: every successor of the
primary unit, in file order. -/
def loadStructures (raw : List Nat) : Except FitsError (List (List Nat)) :=
  chainAux (raw.length / BLOCK_SIZE + 1) raw []

/-- All units materialized by `PrimaryHDU.load`: the primary unit
(`this.hdu`, the full buffer) followed by `this.structures`. -/
def loadChain (raw : List Nat) : Except FitsError (List (List Nat)) :=
  (loadStructures raw).map (fun l => raw :: l)

/-- Node `Buffer.readInt32BE`: big-endian 32-bit two's-complement read
of the first four bytes; a `RangeError` when fewer than four bytes
remain. -/
def readInt32BE (l : List Nat) : Except FitsError Int :=
  match l with
  | b0 :: b1 :: b2 :: b3 :: _ =>
    let u := ((b0 * 256 + b1) * 256 + b2) * 256 + b3
    .ok (if u < 2 ^ 31 then (u : Int) else (u : Int) - 2 ^ 32)
  | _ => .error .rangeError

/-- Node `Buffer.readFloatBE`: big-endian IEEE-754 single-precision
read of the first four bytes (exact rational value; NaN and the
infinities mapped to the corresponding `JsNum`). -/
def readFloatBE (l : List Nat) : Except FitsError JsNum :=
  match l with
  | b0 :: b1 :: b2 :: b3 :: _ =>
    let bits : ℕ := ((b0 * 256 + b1) * 256 + b2) * 256 + b3
    let neg : Bool := decide (2 ^ 31 ≤ bits)
    let ex : ℕ := bits / 2 ^ 23 % 2 ^ 8
    let man : ℕ := bits % 2 ^ 23
    if ex = 255 then
      .ok (if man = 0 then (if neg then .negInf else .posInf) else .nan)
    else if ex = 0 then
      .ok (.num ((if neg then -1 else 1) * (man : ℚ) / 2 ^ 149))
    else
      .ok (.num ((if neg then -1 else 1) * ((2 ^ 23 + man : ℕ) : ℚ) * 2 ^ ex / 2 ^ 150))
  | _ => .error .rangeError

/-- The `while (offset < data.length)` decoding loop of
`FitsStructure.getDataValues`, factored over the data buffer, the
`BITPIX` string and the stride (`bitsPerPixel / 8`), with fuel (one
unit per iteration; the callers pass `data.length`, enough whenever the
stride is positive, which `bitsPerPixel` guarantees) and an accumulator
modelling the source's `values.push` array (reversed on exit). Branch order
matches the source's `switch`: `-32`, `32`, `8`, then the default
throw. -/
def decodeLoop (dt : List Char) (stride : Nat) : Nat → List Nat → List JsNum → Except FitsError (List JsNum)
  | _, [], acc => .ok acc.reverse
  | 0, _ :: _, _ => .error .outOfFuel
  | fuel + 1, b :: rest, acc =>
    if dt = f32Chars then
      match readFloatBE (b :: rest) with
      | .error e => .error e
      | .ok v => decodeLoop dt stride fuel ((b :: rest).drop stride) (v :: acc)
    else if dt = s32Chars then
      match readInt32BE (b :: rest) with
      | .error e => .error e
      | .ok v => decodeLoop dt stride fuel ((b :: rest).drop stride) (JsNum.num (v : ℚ) :: acc)
    else if dt = u8Chars then
      decodeLoop dt stride fuel ((b :: rest).drop stride) (JsNum.num (b : ℚ) :: acc)
    else
      .error (.unsupportedDataType dt)

/-- Flat decode of a byte range under a `BITPIX` encoding: the loop of
`FitsStructure.getDataValues` (the spec's `decodeFlat`). -/
def decodeFlat (dt : List Char) (stride : Nat) (data : List Nat) : Except FitsError (List JsNum) :=
  decodeLoop dt stride data.length data []

/-- `FitsStructure.getDataUnit`: empty when `NAXIS = 0`, else the
subarray from the end of the header blocks over the block-padded data
region (a NaN block count coerces to subarray end 0). -/
def getDataUnit (raw : List Nat) : Except FitsError (List Nat) := do
  let n ← numAxis raw
  if n = 0 then pure []
  else do
    let hb ← getNumHeaderBlocks raw
    let db? ← getNumDataBlocks raw
    match db? with
    | some db => pure (jsSubarray raw ((hb : Int) * (BLOCK_SIZE : Int)) (((hb : Int) + db) * (BLOCK_SIZE : Int)))
    | none => pure (jsSubarray raw ((hb : Int) * (BLOCK_SIZE : Int)) 0)

/-- `FitsStructure.getDataValues`. -/
def getDataValues (raw : List Nat) : Except FitsError (List JsNum) := do
  let data ← getDataUnit raw
  let dt ← pixelDataType raw
  let bpp ← bitsPerPixel raw
  decodeFlat dt (bpp / 8) data

/-- Loop bound of a JavaScript `for (i = 0; i < n; i++)` when `n` may
be NaN (zero iterations) or negative (zero iterations). -/
def jsCount : Option Int → Nat
  | none => 0
  | some k => k.toNat

/-- `FitsStructure.getDataValuesArray`: reshape the flat values
row-major into `NAXIS2` rows of `NAXIS1` columns; an element index past
the flat array yields `undefined` (`none`). -/
def getDataValuesArray (raw : List Nat) : Except FitsError (List (List (Option JsNum))) := do
  let w? ← sizeAxis raw 1
  let h? ← sizeAxis raw 2
  let data ← getDataValues raw
  let w := jsCount w?
  let h := jsCount h?
  pure ((List.range h).map (fun r => (List.range w).map (fun c => data.get? (r * w + c))))

/-- ASCII lower-casing (`String.toLowerCase` on the ASCII range). -/
def lowerChars (l : List Char) : List Char :=
  l.map (fun c => if 65 ≤ c.toNat ∧ c.toNat ≤ 90 then Char.ofNat (c.toNat + 32) else c)

/-- JavaScript `String.includes`. -/
def includesSub (needle : List Char) : List Char → Bool
  | [] => listStartsWith needle []
  | c :: cs => listStartsWith needle (c :: cs) || includesSub needle cs

/-- `FitsStructure.isImage`: requires the `XTENSION` keyword through
the throwing accessor `getMetadataValue`, then tests whether its value
contains `image` case-insensitively. The `xtension &&` guard of the
source is dead code (`getMetadataValue` never returns a falsy value);
it is kept as the emptiness test. -/
def isImage (raw : List Nat) : Except FitsError Bool := do
  let xt ← getMetadataValue raw xtensionChars
  pure (if xt = [] then false else includesSub imageChars (lowerChars xt))

/-- `Number.MAX_VALUE` as an exact rational (computed in ℕ so that
kernel evaluation uses primitive arithmetic). -/
def jsMaxValue : ℚ := ((2 ^ 1024 - 2 ^ 971 : ℕ) : ℚ)

/-- `Number.MIN_VALUE` (the smallest positive double — not the most
negative one) as an exact rational. -/
def jsMinValue : ℚ := mkRat 1 (2 ^ 1074)

/-- Ordered insertion for the sort model. -/
def insertOrd (x : ℚ) : List ℚ → List ℚ
  | [] => [x]
  | y :: ys => if x ≤ y then x :: y :: ys else y :: insertOrd x ys

/-- Ascending numeric sort modelling `Array.sort()`. JavaScript's
default comparator is lexicographic on string representations; it
coincides with numeric order on the single-digit nonnegative lists the
theorems below use (and the odd-length median below does not depend on
the order at all, since its index is fractional). -/
def jsSortNum : List ℚ → List ℚ
  | [] => []
  | x :: xs => insertOrd x (jsSortNum xs)

/-- JavaScript array indexing with a number index: an integer in range
reads the element; a fractional, negative or out-of-range index is a
plain property lookup that yields `undefined` (`none`). -/
def jsArrayGet (l : List ℚ) (i : ℚ) : Option ℚ :=
  if i.den = 1 ∧ 0 ≤ i.num then l[i.num.toNat]? else none

/-- Result record of `FitsStructure.getDataStats`. The `stdDev` field
(a floating-point square root) is not modelled; no claim mentions it.
`median` is an `Option` because the source's fractional index yields
`undefined`, and `mean` is a `JsNum` because `0/0` is NaN. -/
structure JsStats where
  min : ℚ
  max : ℚ
  median : Option ℚ
  mean : JsNum
  deriving DecidableEq

/-- Body of `FitsStructure.getDataStats` over an already-decoded sample
list (the spec's `StatisticsEngine.compute`): median from
`data.sort()[data.length / 2]`, then one pass folding min
(from `Number.MAX_VALUE`), max (from `Number.MIN_VALUE`) and the sum,
then `mean = sum / data.length`. -/
def computeStats (data : List ℚ) : JsStats :=
  let sorted := jsSortNum data
  let median := jsArrayGet sorted ((data.length : ℚ) / 2)
  let acc := data.foldl
    (fun (a : ℚ × ℚ × ℚ) v =>
      ⟨if v < a.1 then v else a.1, if a.2.1 < v then v else a.2.1, a.2.2 + v⟩)
    ⟨jsMaxValue, jsMinValue, 0⟩
  { min := acc.1, max := acc.2.1, median := median, mean := jsDiv acc.2.2 (data.length : ℚ) }

/-- An 80-byte header record from an ASCII string, padded with spaces. -/
def recBytes (s : String) : List Nat :=
  (s.toList.map Char.toNat).take 80 ++ List.replicate (80 - s.length) 32

/-- A 2880-byte header block from a list of records, padded with blank
records. -/
def blockBytes (recs : List String) : List Nat :=
  (recs.map recBytes).flatten ++ List.replicate (2880 - 80 * recs.length) 32

/-- The 36 records of a 2880-byte block, as `getMetadataBlock` extracts
them when the block sits at the start of the buffer. -/
def blockRecords (bl : List Nat) : List (List Char) :=
  (List.range 36).map (fun j =>
    bytesToChars (subarrN bl (j * RECORD_SIZE) (j * RECORD_SIZE + RECORD_SIZE)))

/-- Does any record of a block start with `END`? -/
def blockHasEnd (bl : List Nat) : Bool :=
  (blockRecords bl).any (fun r => listStartsWith endChars r)

/-- The record at global 0-based index `i` of a block-aligned header
region (block `i / 36`, record `i % 36`). -/
def recAt (blocks : List (List Nat)) (i : Nat) : List Char :=
  (blockRecords (blocks.getD (i / 36) [])).getD (i % 36) []

/-- Characters of a padded record built from a string. -/
def recChars (s : String) : List Char := bytesToChars (recBytes s)

/-- A blank (all-spaces) record's characters. -/
def blankRec : List Char := List.replicate 80 ' '

/-- The initial state of `getRawHeaders`' scan. -/
def initScanState : ScanState := ⟨[], false, [], []⟩

def simpleChars : List Char := ['S', 'I', 'M', 'P', 'L', 'E']

def fooChars : List Char := ['F', 'O', 'O']

/-- Records of the synthetic primary unit's header: `NAXIS = 0`, no
data. -/
def unit0Records : List String :=
  ["SIMPLE  =                    T", "NAXIS   =                    0", "END"]

/-- Header block of the synthetic primary unit. -/
def unit0Header : List Nat := blockBytes unit0Records

/-- Scan state after scanning the primary unit's header. -/
def unit0St : ScanState :=
  ⟨unit0Records.map recChars ++ List.replicate 33 blankRec, true,
    [(simpleChars, ['T']), (naxisChars, ['0']), (endChars, [])], []⟩

/-- Records of the synthetic second unit's header: a 2x2 `BITPIX = 8`
image. -/
def unit1Records : List String :=
  ["XTENSION= 'IMAGE   '", "BITPIX  =                    8",
    "NAXIS   =                    2", "NAXIS1  =                    2",
    "NAXIS2  =                    2", "END"]

/-- Header block of the synthetic second unit. -/
def unit1Header : List Nat := blockBytes unit1Records

/-- Scan state after scanning the second unit's header. -/
def unit1St : ScanState :=
  ⟨unit1Records.map recChars ++ List.replicate 30 blankRec, true,
    [(xtensionChars, ['\'', 'I', 'M', 'A', 'G', 'E', ' ', ' ', ' ', '\'']),
      (bitpixChars, ['8']), (naxisChars, ['2']),
      (naxisChars ++ ['1'], ['2']), (naxisChars ++ ['2'], ['2']), (endChars, [])], []⟩

/-- Data block of the synthetic second unit: bytes 10, 20, 30, 40 and
block padding. -/
def unit1Data : List Nat := [10, 20, 30, 40] ++ List.replicate 2876 0

/-- The bytes of the synthetic second unit (header plus data). -/
def unit1View : List Nat := unit1Header ++ unit1Data

/-- The synthetic two-unit file of the spec's end-to-end property. -/
def synthFile : List Nat := unit0Header ++ unit1View

/-- Records of a single-unit file whose header declares a negative axis
length (`NAXIS1 = -3000`), making the declared data size negative. -/
def negAxisRecords : List String :=
  ["SIMPLE  =                    T", "BITPIX  =                    8",
    "NAXIS   =                    1", "NAXIS1  =                -3000", "END"]

/-- The negative-axis-length unit's bytes (one header block). -/
def negAxisUnit : List Nat := blockBytes negAxisRecords

/-- Scan state after scanning the negative-axis-length header. -/
def negAxisSt : ScanState :=
  ⟨negAxisRecords.map recChars ++ List.replicate 31 blankRec, true,
    [(simpleChars, ['T']), (bitpixChars, ['8']), (naxisChars, ['1']),
      (naxisChars ++ ['1'], ['-', '3', '0', '0', '0']), (endChars, [])], []⟩

/-- Records of a header whose `FOO` record has a value field holding
only an in-record comment, so the parsed value is the empty string. -/
def emptyValueRecords : List String :=
  ["FOO     = / value field holds only a comment", "END"]

/-- The empty-value header's bytes. -/
def emptyValueHeader : List Nat := blockBytes emptyValueRecords

/-- Scan state after scanning the empty-value header: `FOO` is stored
with the empty string as its value. -/
def emptyValueSt : ScanState :=
  ⟨emptyValueRecords.map recChars ++ List.replicate 34 blankRec, true,
    [(fooChars, []), (endChars, [])], []⟩

/-- One all-spaces header block: valid records, no `END` anywhere. -/
def noEndBlock : List Nat := List.replicate 2880 32


/-- Big-endian value of a byte list. -/
def beNat (l : List Nat) : Nat := l.foldl (fun a b => a * 256 + b) 0

/-- The signed two's-complement reading of a big-endian 32-bit chunk
(specification-side description of `readInt32BE`). -/
def int32OfBE (l : List Nat) : Int :=
  if beNat l < 2 ^ 31 then (beNat l : Int) else (beNat l : Int) - 2 ^ 32

/-- The IEEE-754 single-precision reading of a big-endian 4-byte chunk
(specification-side description of `readFloatBE`). -/
def float32OfBE (l : List Nat) : JsNum :=
  match readFloatBE l with
  | .ok v => v
  | .error _ => .nan

/-- The sample produced from one unsigned byte (`BITPIX = 8`). -/
def u8Val (b : ℕ) : JsNum := JsNum.num (b : ℚ)

/-- The sample produced from one signed big-endian 32-bit stride
(`BITPIX = 32`). -/
def s32Val (c : List ℕ) : JsNum := JsNum.num ((int32OfBE c : ℤ) : ℚ)

/-- Split a byte list into consecutive 4-byte strides (a trailing
fragment shorter than 4 bytes is dropped). -/
def chunkFour : List Nat → List (List Nat)
  | b0 :: b1 :: b2 :: b3 :: rest => [b0, b1, b2, b3] :: chunkFour rest
  | _ => []

/-!
Lemmas. First a toolkit: lengths of the synthetic buffers, slicing
facts, and evaluation lemmas that let concrete runs of the scanner and
decoder be computed without ever walking a 2880-element list in a
single kernel reduction.
-/

/-- A string of at most 80 characters pads to an 80-byte record. -/
theorem recBytes_length (s : String) (h : s.length ≤ 80) : (recBytes s).length = 80 := by
  have hs : s.toList.length = s.length := rfl
  simp [recBytes, List.length_append, List.length_take, List.length_replicate,
    List.length_map, hs]
  omega

/-- Length of the flatten of uniform-length lists. -/
theorem flatten_uniform_length (k : Nat) (L : List (List Nat)) (h : ∀ l ∈ L, l.length = k) :
    L.flatten.length = k * L.length := by
  induction L with
  | nil => simp
  | cons l L ih =>
    simp only [List.flatten_cons, List.length_append, List.length_cons]
    rw [h l (by simp), ih (fun x hx => h x (by simp [hx]))]
    ring

/-- A block built from at most 36 records of at most 80 characters is
exactly 2880 bytes. -/
theorem blockBytes_length (rs : List String) (h1 : ∀ s ∈ rs, s.length ≤ 80)
    (h2 : rs.length ≤ 36) : (blockBytes rs).length = 2880 := by
  have hf : ((rs.map recBytes).flatten).length = 80 * rs.length := by
    rw [flatten_uniform_length 80]
    · simp
    · intro l hl
      obtain ⟨s, hs, rfl⟩ := List.mem_map.mp hl
      exact recBytes_length s (h1 s hs)
  simp only [blockBytes, List.length_append, List.length_replicate, hf]
  omega

theorem unit0Header_length : unit0Header.length = 2880 :=
  blockBytes_length _ (by decide) (by decide)

theorem unit1Header_length : unit1Header.length = 2880 :=
  blockBytes_length _ (by decide) (by decide)

theorem negAxisUnit_length : negAxisUnit.length = 2880 :=
  blockBytes_length _ (by decide) (by decide)

theorem emptyValueHeader_length : emptyValueHeader.length = 2880 :=
  blockBytes_length _ (by decide) (by decide)

theorem unit1Data_length : unit1Data.length = 2880 := by
  simp [unit1Data]

theorem unit1View_length : unit1View.length = 5760 := by
  simp [unit1View, List.length_append, unit1Header_length, unit1Data_length]

theorem synthFile_length : synthFile.length = 8640 := by
  simp [synthFile, List.length_append, unit0Header_length, unit1View_length]

/-- The first metadata block of a buffer whose first 2880 bytes are
`bl`. -/
theorem getMetadataBlock_one (raw bl rest : List Nat) (hraw : raw = bl ++ rest)
    (hbl : bl.length = 2880) : getMetadataBlock raw 1 = blockRecords bl := by
  have h1 : getDataBlock raw 1 = bl := by
    simp only [getDataBlock, subarrN, BLOCK_SIZE, hraw]
    simp [List.take_left' hbl]
  unfold getMetadataBlock blockRecords
  rw [h1]

/-- Running the header scan on a buffer whose first block already
contains the terminator: the loop processes block 1, sees `found`, and
stops. -/
theorem getRawHeaders_single (raw bl rest : List Nat) (st : ScanState)
    (hraw : raw = bl ++ rest) (hbl : bl.length = 2880)
    (hrun : processRecords initScanState (blockRecords bl) = .ok st)
    (hf : st.found = true) : getRawHeaders raw = .ok st := by
  unfold getRawHeaders
  have hfuel : raw.length / BLOCK_SIZE + 2 = (raw.length / BLOCK_SIZE + 1) + 1 := rfl
  rw [hfuel, scanLoop]
  have hmb := getMetadataBlock_one raw bl rest hraw hbl
  have hrun' : processRecords ⟨[], false, [], []⟩ (blockRecords bl) = .ok st := hrun
  simp only [hmb, hrun']
  rw [scanLoop]
  simp [hf]

theorem processRecords_unit0 :
    processRecords initScanState (blockRecords unit0Header) = .ok unit0St := by decide

theorem processRecords_unit1 :
    processRecords initScanState (blockRecords unit1Header) = .ok unit1St := by decide

theorem processRecords_negAxis :
    processRecords initScanState (blockRecords negAxisUnit) = .ok negAxisSt := by decide

theorem processRecords_emptyValue :
    processRecords initScanState (blockRecords emptyValueHeader) = .ok emptyValueSt := by decide

theorem getRawHeaders_unit0 (rest : List Nat) :
    getRawHeaders (unit0Header ++ rest) = .ok unit0St :=
  getRawHeaders_single _ _ rest _ rfl unit0Header_length processRecords_unit0 rfl

theorem getRawHeaders_unit1 (rest : List Nat) :
    getRawHeaders (unit1Header ++ rest) = .ok unit1St :=
  getRawHeaders_single _ _ rest _ rfl unit1Header_length processRecords_unit1 rfl

theorem getRawHeaders_negAxis : getRawHeaders negAxisUnit = .ok negAxisSt :=
  getRawHeaders_single _ _ [] _ (by simp) negAxisUnit_length processRecords_negAxis rfl

theorem getRawHeaders_emptyValue : getRawHeaders emptyValueHeader = .ok emptyValueSt :=
  getRawHeaders_single _ _ [] _ (by simp) emptyValueHeader_length processRecords_emptyValue rfl

/-- The decoding loop under `BITPIX = 8` decodes every byte as its
unsigned value, in order. -/
theorem decodeLoop_u8 (data : List Nat) (acc : List JsNum) (fuel : Nat)
    (hfuel : data.length ≤ fuel) :
    decodeLoop u8Chars 1 fuel data acc
      = .ok (acc.reverse ++ data.map u8Val) := by
  induction data generalizing fuel acc with
  | nil => cases fuel <;> simp [decodeLoop]
  | cons b rest ih =>
    cases fuel with
    | zero => simp at hfuel
    | succ f =>
      rw [decodeLoop]
      simp only [show u8Chars ≠ f32Chars from by decide, show u8Chars ≠ s32Chars from by decide,
        if_neg, if_pos rfl, List.drop_succ_cons, List.drop_zero]
      rw [ih (JsNum.num (b : ℚ) :: acc) f (by simpa using hfuel)]
      simp [u8Val]

/-- `decodeFlat` under `BITPIX = 8` is the per-byte unsigned decode. -/
theorem decodeFlat_u8 (data : List Nat) :
    decodeFlat u8Chars 1 data = .ok (data.map u8Val) := by
  simpa using decodeLoop_u8 data [] data.length le_rfl

/-- `readInt32BE` on a list with at least four bytes reads the signed
big-endian value of the first stride. -/
theorem readInt32BE_cons (b0 b1 b2 b3 : Nat) (rest : List Nat) :
    readInt32BE (b0 :: b1 :: b2 :: b3 :: rest) = .ok (int32OfBE [b0, b1, b2, b3]) := by
  have h : beNat [b0, b1, b2, b3] = ((b0 * 256 + b1) * 256 + b2) * 256 + b3 := by
    simp [beNat]
  simp only [readInt32BE, int32OfBE, h]

/-- `readFloatBE` on a list with at least four bytes reads the IEEE
single value of the first stride. -/
theorem readFloatBE_cons (b0 b1 b2 b3 : Nat) (rest : List Nat) :
    readFloatBE (b0 :: b1 :: b2 :: b3 :: rest) = .ok (float32OfBE [b0, b1, b2, b3]) := by
  simp only [float32OfBE, readFloatBE]
  split_ifs <;> rfl

/-- The decoding loop under `BITPIX = 32` decodes consecutive 4-byte
strides as big-endian signed 32-bit integers. -/
theorem decodeLoop_s32 (fuel : Nat) (data : List Nat) (acc : List JsNum)
    (h4 : 4 ∣ data.length) (hfuel : data.length ≤ fuel) :
    decodeLoop s32Chars 4 fuel data acc
      = .ok (acc.reverse ++ (chunkFour data).map s32Val) := by
  induction fuel generalizing data acc with
  | zero =>
    have : data = [] := by
      cases data with
      | nil => rfl
      | cons b rest => simp at hfuel
    subst this
    simp [decodeLoop, chunkFour]
  | succ f ih =>
    match data, h4, hfuel with
    | [], _, _ => simp [decodeLoop, chunkFour]
    | [b0], h4, _ => simp at h4 <;> omega
    | [b0, b1], h4, _ => simp at h4 <;> omega
    | [b0, b1, b2], h4, _ => simp at h4 <;> omega
    | b0 :: b1 :: b2 :: b3 :: rest, h4, hfuel =>
      rw [decodeLoop]
      simp only [show ¬(s32Chars = f32Chars) from by decide, if_neg, if_pos rfl,
        readInt32BE_cons]
      rw [show (b0 :: b1 :: b2 :: b3 :: rest).drop 4 = rest from rfl]
      rw [ih rest (JsNum.num ((int32OfBE [b0, b1, b2, b3] : ℤ) : ℚ) :: acc)
        (by simp at h4 ⊢; omega) (by simp at hfuel ⊢; omega)]
      rw [show chunkFour (b0 :: b1 :: b2 :: b3 :: rest) = [b0, b1, b2, b3] :: chunkFour rest
        from rfl]
      simp [s32Val]

/-- The decoding loop under `BITPIX = -32` decodes consecutive 4-byte
strides as big-endian IEEE single floats. -/
theorem decodeLoop_f32 (fuel : Nat) (data : List Nat) (acc : List JsNum)
    (h4 : 4 ∣ data.length) (hfuel : data.length ≤ fuel) :
    decodeLoop f32Chars 4 fuel data acc
      = .ok (acc.reverse ++ (chunkFour data).map float32OfBE) := by
  induction fuel generalizing data acc with
  | zero =>
    have : data = [] := by
      cases data with
      | nil => rfl
      | cons b rest => simp at hfuel
    subst this
    simp [decodeLoop, chunkFour]
  | succ f ih =>
    match data, h4, hfuel with
    | [], _, _ => simp [decodeLoop, chunkFour]
    | [b0], h4, _ => simp at h4 <;> omega
    | [b0, b1], h4, _ => simp at h4 <;> omega
    | [b0, b1, b2], h4, _ => simp at h4 <;> omega
    | b0 :: b1 :: b2 :: b3 :: rest, h4, hfuel =>
      rw [decodeLoop]
      simp only [if_pos rfl, readFloatBE_cons]
      rw [show (b0 :: b1 :: b2 :: b3 :: rest).drop 4 = rest from rfl]
      rw [ih rest (float32OfBE [b0, b1, b2, b3] :: acc)
        (by simp at h4 ⊢; omega) (by simp at hfuel ⊢; omega)]
      rw [show chunkFour (b0 :: b1 :: b2 :: b3 :: rest) = [b0, b1, b2, b3] :: chunkFour rest
        from rfl]
      simp

/-- The decoding loop rejects any other encoding as soon as there is a
byte to decode. -/
theorem decodeLoop_unsupported (dt : List Char) (stride fuel : Nat) (b : Nat)
    (rest : List Nat) (acc : List JsNum) (hfuel : 0 < fuel)
    (h1 : dt ≠ f32Chars) (h2 : dt ≠ s32Chars) (h3 : dt ≠ u8Chars) :
    decodeLoop dt stride fuel (b :: rest) acc = .error (.unsupportedDataType dt) := by
  cases fuel with
  | zero => omega
  | succ f =>
    rw [decodeLoop]
    simp [h1, h2, h3]

/-- Number of 4-byte strides in a list. -/
theorem chunkFour_length_aux (n : Nat) :
    ∀ data : List Nat, data.length ≤ n → (chunkFour data).length = data.length / 4 := by
  induction n with
  | zero =>
    intro data h
    match data with
    | [] => rfl
    | b :: rest => simp at h
  | succ n ih =>
    intro data h
    match data with
    | [] => rfl
    | [b0] => simp [show chunkFour [b0] = [] from rfl]
    | [b0, b1] => simp [show chunkFour [b0, b1] = [] from rfl]
    | [b0, b1, b2] => simp [show chunkFour [b0, b1, b2] = [] from rfl]
    | b0 :: b1 :: b2 :: b3 :: rest =>
      rw [show chunkFour (b0 :: b1 :: b2 :: b3 :: rest) = [b0, b1, b2, b3] :: chunkFour rest
        from rfl]
      simp only [List.length_cons]
      rw [ih rest (by simp at h ⊢; omega)]
      omega

theorem chunkFour_length (data : List Nat) : (chunkFour data).length = data.length / 4 :=
  chunkFour_length_aux data.length data le_rfl

/-- `decodeFlat` under `BITPIX = 32` on stride-aligned data. -/
theorem decodeFlat_s32 (data : List Nat) (h4 : 4 ∣ data.length) :
    decodeFlat s32Chars 4 data = .ok ((chunkFour data).map s32Val) := by
  simpa using decodeLoop_s32 data.length data [] h4 le_rfl

/-- `decodeFlat` under `BITPIX = -32` on stride-aligned data. -/
theorem decodeFlat_f32 (data : List Nat) (h4 : 4 ∣ data.length) :
    decodeFlat f32Chars 4 data = .ok ((chunkFour data).map float32OfBE) := by
  simpa using decodeLoop_f32 data.length data [] h4 le_rfl

/-- C3 counterexample: the claim says every encoding in
{8, 16, 32, 64, -32, -64} decodes successfully on stride-aligned data,
but `BITPIX = 16` on the two-byte range [0, 0] (a multiple of its
2-byte stride) hits the `switch`'s default branch and throws. -/
theorem c3_counterexample :
    decodeFlat s16Chars 2 [0, 0] = .error (.unsupportedDataType s16Chars) := by decide

/-- C3 (amended): the flat decode succeeds exactly for the encodings
the `switch` implements — 8 (unsigned bytes), 32 (big-endian signed
two's-complement 32-bit strides) and -32 (big-endian IEEE single
strides) — and fails with the unsupported-encoding error for 16, 64
and -64 (despite their membership in the `BITPIX` enum) as soon as the
data range is nonempty. -/
theorem c3_decode_encodings (data : List Nat) :
    decodeFlat u8Chars 1 data = .ok (data.map u8Val)
    ∧ (4 ∣ data.length →
        decodeFlat s32Chars 4 data = .ok ((chunkFour data).map s32Val)
        ∧ decodeFlat f32Chars 4 data = .ok ((chunkFour data).map float32OfBE))
    ∧ (data ≠ [] →
        decodeFlat s16Chars 2 data = .error (.unsupportedDataType s16Chars)
        ∧ decodeFlat s64Chars 8 data = .error (.unsupportedDataType s64Chars)
        ∧ decodeFlat f64Chars 8 data = .error (.unsupportedDataType f64Chars)) := by
  refine ⟨decodeFlat_u8 data, fun h4 => ⟨decodeFlat_s32 data h4, decodeFlat_f32 data h4⟩, ?_⟩
  intro hne
  match data, hne with
  | b :: rest, _ =>
    refine ⟨?_, ?_, ?_⟩ <;>
      exact decodeLoop_unsupported _ _ _ b rest [] (by simp) (by decide) (by decide) (by decide)

/-- C3 witness: on the concrete stride-aligned range [0, 0, 0, 1],
`BITPIX = 32` decodes to the single value 1 and `BITPIX = 16` throws. -/
theorem c3_decode_encodings_witness :
    decodeFlat s32Chars 4 [0, 0, 0, 1] = .ok [JsNum.num 1]
    ∧ decodeFlat s16Chars 2 [0, 0, 0, 1] = .error (.unsupportedDataType s16Chars) := by
  have h := c3_decode_encodings [0, 0, 0, 1]
  refine ⟨?_, (h.2.2 (by decide)).1⟩
  have h2 := (h.2.1 (by decide)).1
  rw [h2]
  decide

/-- C2: evaluating the statistics body on the samples [1, 2, 3, 4, 5]
shows min = 1, max = 5 and mean = 3 as the claim states, but the
median is `undefined`, not 3: the source indexes the sorted array at
`data.length / 2 = 2.5`, a fractional JavaScript index, so this is a
bug in the code against the claim's (and the declared return type's)
intent. -/
theorem c2_stats_on_concrete_samples :
    computeStats [1, 2, 3, 4, 5]
      = { min := 1, max := 5, median := none, mean := JsNum.num 3 } := by
  unfold computeStats jsSortNum insertOrd jsArrayGet jsDiv
  norm_num [jsMaxValue, jsMinValue, Rat.mkRat_eq_div]

/-- C6: evaluating the statistics body on the empty sample list shows
it does not fail at all: it returns min = `Number.MAX_VALUE`,
max = `Number.MIN_VALUE`, an `undefined` median, and a NaN mean
(`0 / 0`) — a bug in the code against the claim's requirement that the
empty case fail with an `EmptyInput` error rather than silently
produce NaN. -/
theorem c6_stats_on_empty :
    computeStats []
      = { min := jsMaxValue, max := jsMinValue, median := none, mean := JsNum.nan } := by
  unfold computeStats jsSortNum jsArrayGet jsDiv
  norm_num

theorem getRawHeaders_unit0_plain : getRawHeaders unit0Header = .ok unit0St :=
  getRawHeaders_single _ _ [] _ (by simp) unit0Header_length processRecords_unit0 rfl

/-- C10: whenever the header scan succeeds, the required-value lookup
fails with the missing-keyword error both when the keyword is absent
and when its stored parsed value is the empty string (the source's
falsy test `if (!value)`), and it returns a value only when a nonempty
string is stored. -/
theorem c10_empty_value_is_missing (raw : List Nat) (key : List Char)
    (hok : exceptOk (getRawHeaders raw) = true) :
    ((headerLookup raw key = none ∨ headerLookup raw key = some []) →
      getMetadataValue raw key = .error (.missingKeyword key))
    ∧ (∀ v, getMetadataValue raw key = .ok v → headerLookup raw key = some v ∧ v ≠ []) := by
  cases h : getRawHeaders raw with
  | error e => simp [exceptOk, h] at hok
  | ok st =>
    have hGM : getMetadataValue raw key
        = (match mapGet st.headers key with
          | none => .error (.missingKeyword key)
          | some v => if v = [] then .error (.missingKeyword key) else .ok v) := by
      unfold getMetadataValue
      rw [h]
    have hHL : headerLookup raw key = mapGet st.headers key := by
      unfold headerLookup
      rw [h]
    rw [hGM, hHL]
    cases hm : mapGet st.headers key with
    | none => exact ⟨fun _ => rfl, fun v hv => by simp at hv⟩
    | some v =>
      by_cases hv : v = []
      · subst hv
        exact ⟨fun _ => by simp, fun v' hv' => by simp at hv'⟩
      · refine ⟨fun hcase => ?_, fun v' hv' => ?_⟩
        · rcases hcase with hc | hc
          · simp at hc
          · simp at hc
            exact absurd hc hv
        · simp only [if_neg hv] at hv'
          cases hv'
          exact ⟨rfl, hv⟩

/-- C10 witness: the concrete header whose `FOO` record's value field
holds only an in-record comment stores the empty string for `FOO`, and
the required-value lookup fails exactly as if `FOO` were absent. -/
theorem c10_empty_value_is_missing_witness :
    getMetadataValue emptyValueHeader fooChars = .error (.missingKeyword fooChars) := by
  have hok : exceptOk (getRawHeaders emptyValueHeader) = true := by
    rw [getRawHeaders_emptyValue]; rfl
  have hsome : headerLookup emptyValueHeader fooChars = some [] := by
    unfold headerLookup
    rw [getRawHeaders_emptyValue]
    decide
  exact (c10_empty_value_is_missing emptyValueHeader fooChars hok).1 (Or.inr hsome)

/-- C5: on a unit whose header lacks the `XTENSION` keyword, the
image predicate does not return false — it raises the missing-keyword
error, because it reads the keyword through the throwing accessor
`getMetadataValue` (its `xtension &&` guard is dead code); this
contradicts the claim, whose treat-absent-as-false behavior is the
evident intent of that guard. -/
theorem c5_isimage_throws_on_missing_xtension :
    isImage unit0Header = .error (.missingKeyword xtensionChars) := by
  unfold isImage getMetadataValue
  rw [getRawHeaders_unit0_plain]
  decide

/-- Processing one 80-character record always succeeds and appends the
record to the raw list, OR-ing the terminator test into `found`. -/
theorem processEntry_ok (st : ScanState) (r : List Char) (hr : r.length = 80) :
    ∃ st', processEntry st r = .ok st'
      ∧ st'.found = (st.found || listStartsWith endChars r)
      ∧ st'.metadata = st.metadata ++ [r] := by
  unfold processEntry
  rw [if_pos hr]
  by_cases hv : isValidKeyword (r.take 8)
  · rw [if_pos hv]
    by_cases hc : isCommentaryKeyword (jsTrim (r.take 8))
    · rw [if_pos hc]
      exact ⟨_, rfl, rfl, rfl⟩
    · rw [if_neg hc]
      exact ⟨_, rfl, rfl, rfl⟩
  · rw [if_neg hv]
    exact ⟨_, rfl, rfl, rfl⟩

/-- Processing a list of 80-character records always succeeds,
accumulates them onto the raw record list, and sets `found` exactly
when some record starts with `END`. -/
theorem processRecords_full (rs : List (List Char)) (hrs : ∀ r ∈ rs, r.length = 80) :
    ∀ st : ScanState, ∃ st', processRecords st rs = .ok st'
      ∧ st'.found = (st.found || rs.any (fun r => listStartsWith endChars r))
      ∧ st'.metadata = st.metadata ++ rs := by
  induction rs with
  | nil => intro st; exact ⟨st, rfl, by simp, by simp⟩
  | cons r rs ih =>
    intro st
    obtain ⟨st1, h1, hf1, hm1⟩ := processEntry_ok st r (hrs r (by simp))
    obtain ⟨st', h', hf', hm'⟩ := ih (fun x hx => hrs x (by simp [hx])) st1
    refine ⟨st', ?_, ?_, ?_⟩
    · unfold processRecords
      rw [h1]
      exact h'
    · rw [hf', hf1, List.any_cons, Bool.or_assoc]
    · rw [hm', hm1, List.append_assoc]
      rfl

/-- Every record of a full 2880-byte block is 80 characters. -/
theorem blockRecords_length_80 (bl : List Nat) (hbl : bl.length = 2880) :
    ∀ r ∈ blockRecords bl, r.length = 80 := by
  intro r hr
  simp only [blockRecords, List.mem_map, List.mem_range] at hr
  obtain ⟨j, hj, rfl⟩ := hr
  simp only [bytesToChars, subarrN, List.length_map, List.length_take, List.length_drop,
    RECORD_SIZE]
  omega

/-- `getMetadataBlock` is `blockRecords` of the corresponding raw
block. -/
theorem getMetadataBlock_eq (raw : List Nat) (b : Nat) :
    getMetadataBlock raw b = blockRecords (getDataBlock raw b) := rfl

/-- The first data block of a buffer starting with a full block. -/
theorem getDataBlock_first (bl rest : List Nat) (hbl : bl.length = 2880) :
    getDataBlock (bl ++ rest) 1 = bl := by
  simp only [getDataBlock, subarrN, BLOCK_SIZE]
  simp [List.take_left' hbl]

/-- Later data blocks of a buffer starting with a full block skip it. -/
theorem getDataBlock_rest (bl F : List Nat) (hbl : bl.length = 2880) (j : Nat) :
    getDataBlock (bl ++ F) (j + 1 + 1) = getDataBlock F (j + 1) := by
  simp only [getDataBlock, subarrN, BLOCK_SIZE]
  have h2 : (j + 1 + 1 - 1) * 2880 = bl.length + (j + 1 - 1) * 2880 := by
    rw [hbl]; omega
  have h3 : (j + 1 + 1) * 2880 - (bl.length + (j + 1 - 1) * 2880)
      = (j + 1) * 2880 - (j + 1 - 1) * 2880 := by rw [hbl]; omega
  rw [h2, List.drop_append, h3]

/-- The (j+1)-st data block of a flattened list of 2880-byte blocks. -/
theorem getDataBlock_flatten (blocks : List (List Nat))
    (hlen : ∀ bl ∈ blocks, bl.length = 2880) (j : Nat) :
    getDataBlock blocks.flatten (j + 1) = blocks.getD j [] := by
  induction blocks generalizing j with
  | nil => simp [getDataBlock, subarrN]
  | cons bl rest ih =>
    have hbl : bl.length = 2880 := hlen bl (by simp)
    cases j with
    | zero =>
      rw [List.flatten_cons, getDataBlock_first bl rest.flatten hbl]
      rfl
    | succ j =>
      rw [List.flatten_cons, getDataBlock_rest bl rest.flatten hbl j,
        ih (fun x hx => hlen x (by simp [hx]))]
      rfl

/-- Data blocks past the end of a flattened block list are empty. -/
theorem getDataBlock_beyond (blocks : List (List Nat))
    (hlen : ∀ bl ∈ blocks, bl.length = 2880) (j : Nat) (hj : blocks.length ≤ j) :
    getDataBlock blocks.flatten (j + 1) = [] := by
  simp only [getDataBlock, subarrN, BLOCK_SIZE]
  have h : blocks.flatten.length ≤ (j + 1 - 1) * 2880 := by
    rw [flatten_uniform_length 2880 blocks hlen]
    omega
  rw [List.drop_eq_nil_of_le h]
  simp

/-- Scanning an empty (out-of-range) block fails at its first record:
the clipped record is zero characters and trips the 80-character
check. -/
theorem processRecords_emptyBlock (st : ScanState) :
    processRecords st (blockRecords []) = .error (.malformedRecord 0) := by
  have h : blockRecords [] = List.replicate 36 [] := by decide
  rw [h, List.replicate_succ]
  unfold processRecords
  simp [processEntry]

/-- A getD element of a list is a member when in range. -/
theorem getD_mem_of_lt (blocks : List (List Nat)) (j : Nat) (hj : j < blocks.length) :
    blocks.getD j [] ∈ blocks := by
  rw [List.getD_eq_getElem blocks [] hj]
  exact List.getElem_mem hj

/-- The scanning loop on a block-aligned buffer with no terminator
anywhere runs past the end and fails with the zero-length record
error. -/
theorem scanLoop_noEnd (blocks : List (List Nat))
    (hlen : ∀ bl ∈ blocks, bl.length = 2880)
    (hne : ∀ bl ∈ blocks, blockHasEnd bl = false) :
    ∀ fuel j (st : ScanState), st.found = false → blocks.length - j + 1 ≤ fuel →
      scanLoop blocks.flatten fuel (j + 1) st = .error (.malformedRecord 0) := by
  intro fuel
  induction fuel with
  | zero => intro j st _ hf; omega
  | succ f ih =>
    intro j st hfound hfuel
    rw [scanLoop, if_neg (by rw [hfound]; simp), getMetadataBlock_eq]
    by_cases hj : j < blocks.length
    · rw [getDataBlock_flatten blocks hlen j]
      have hmem := getD_mem_of_lt blocks j hj
      obtain ⟨st', hok, hfound', hmeta⟩ :=
        processRecords_full (blockRecords (blocks.getD j []))
          (blockRecords_length_80 _ (hlen _ hmem)) st
      rw [hok]
      have hf' : st'.found = false := by
        rw [hfound', hfound, Bool.false_or]
        have := hne _ hmem
        unfold blockHasEnd at this
        exact this
      exact ih (j + 1) st' hf' (by omega)
    · rw [getDataBlock_beyond blocks hlen j (by omega), processRecords_emptyBlock]

/-- Header scanning a block-aligned buffer with no `END` record fails
with the record-length (malformed-record) error on the first clipped
record past the end of the input. -/
theorem getRawHeaders_noEnd (blocks : List (List Nat))
    (hlen : ∀ bl ∈ blocks, bl.length = 2880)
    (hne : ∀ bl ∈ blocks, blockHasEnd bl = false) :
    getRawHeaders blocks.flatten = .error (.malformedRecord 0) := by
  unfold getRawHeaders
  have hlen' : blocks.flatten.length = 2880 * blocks.length :=
    flatten_uniform_length 2880 blocks hlen
  have hdiv : blocks.flatten.length / BLOCK_SIZE = blocks.length := by
    rw [hlen']
    simp [BLOCK_SIZE]
  rw [hdiv]
  exact scanLoop_noEnd blocks hlen hne (blocks.length + 2) 0 _ rfl (by omega)

/-- C4 counterexample: on the concrete all-spaces header block (valid
80-character records, no `END`), header scanning does not fail with a
dedicated missing-terminator error — there is no such throw site in
the code; it exhausts the input and then fails with the record-length
(malformed-record) check on the zero-length record clipped from the
first out-of-range block. -/
theorem c4_counterexample :
    getRawHeaders noEndBlock = .error (.malformedRecord 0) := by
  have h := getRawHeaders_noEnd [noEndBlock]
    (by intro bl hbl; rw [List.mem_singleton] at hbl; subst hbl; simp [noEndBlock])
    (by intro bl hbl; rw [List.mem_singleton] at hbl; subst hbl; decide)
  rw [show ([noEndBlock] : List (List Nat)).flatten = noEndBlock by simp] at h
  exact h

/-- C4 (amended): for every block-aligned byte view none of whose
header records starts with `END`, header scanning terminates once the
input bytes are exhausted, but it fails with the record-length
(malformed-record) error — raised on the zero-length record clipped
from the first block past the end — not with a dedicated
missing-terminator error, which the code does not have. -/
theorem c4_scan_no_terminator (blocks : List (List Nat))
    (hlen : ∀ bl ∈ blocks, bl.length = 2880)
    (hne : ∀ bl ∈ blocks, blockHasEnd bl = false) :
    getRawHeaders blocks.flatten = .error (.malformedRecord 0) :=
  getRawHeaders_noEnd blocks hlen hne

/-- C4 witness: the amended theorem applied to the concrete one-block
no-terminator buffer. -/
theorem c4_scan_no_terminator_witness :
    getRawHeaders ([noEndBlock] : List (List Nat)).flatten
      = .error (.malformedRecord 0) :=
  c4_scan_no_terminator [noEndBlock]
    (by intro bl hbl; rw [List.mem_singleton] at hbl; subst hbl; simp [noEndBlock])
    (by intro bl hbl; rw [List.mem_singleton] at hbl; subst hbl; decide)

/-- `recAt` at record `r` of block `j`. -/
theorem recAt_block (blocks : List (List Nat)) (j r : Nat) (hr : r < 36) :
    recAt blocks (36 * j + r) = (blockRecords (blocks.getD j [])).getD r [] := by
  unfold recAt
  have h1 : (36 * j + r) / 36 = j := by omega
  have h2 : (36 * j + r) % 36 = r := by omega
  rw [h1, h2]

/-- A block always splits into exactly 36 records. -/
theorem blockRecords_count (bl : List Nat) : (blockRecords bl).length = 36 := by
  simp [blockRecords]

/-- A block before the terminator's block has no `END` record. -/
theorem blockHasEnd_false_of_before (blocks : List (List Nat)) (i j : Nat)
    (hj : j < i / 36)
    (hBef : ∀ k < i, listStartsWith endChars (recAt blocks k) = false) :
    blockHasEnd (blocks.getD j []) = false := by
  unfold blockHasEnd
  rw [List.any_eq_false]
  intro x hx
  obtain ⟨r, hr, hxr⟩ := List.mem_iff_getElem.mp hx
  rw [blockRecords_count] at hr
  have hx' : x = recAt blocks (36 * j + r) := by
    rw [recAt_block blocks j r hr, List.getD_eq_getElem _ _ (by rw [blockRecords_count]; omega),
      hxr]
  rw [hx']
  simp only [hBef (36 * j + r) (by omega)]
  simp

/-- The terminator's block has an `END` record. -/
theorem blockHasEnd_true_at (blocks : List (List Nat)) (i : Nat)
    (hEnd : listStartsWith endChars (recAt blocks i) = true) :
    blockHasEnd (blocks.getD (i / 36) []) = true := by
  unfold blockHasEnd
  rw [List.any_eq_true]
  refine ⟨(blockRecords (blocks.getD (i / 36) [])).getD (i % 36) [], ?_, ?_⟩
  · rw [List.getD_eq_getElem (blockRecords (blocks.getD (i / 36) [])) []
      (by rw [blockRecords_count]; omega : i % 36 < (blockRecords (blocks.getD (i / 36) [])).length)]
    exact List.getElem_mem _
  · have h : recAt blocks i = (blockRecords (blocks.getD (i / 36) [])).getD (i % 36) [] := by
      have hi : i = 36 * (i / 36) + i % 36 := by omega
      rw [hi] at hEnd ⊢
      rw [recAt_block blocks (i / 36) (i % 36) (by omega)]
      rw [show (36 * (i / 36) + i % 36) / 36 = i / 36 by omega]
      rw [show (36 * (i / 36) + i % 36) % 36 = i % 36 by omega]
    rw [← h]
    exact hEnd

/-- The scanning loop on a block-aligned buffer whose first `END`
record sits at global record index `i` stops after the block containing
it, having pushed exactly `36 * (i / 36 + 1)` raw records. -/
theorem scanLoop_endAt (blocks : List (List Nat))
    (hlen : ∀ bl ∈ blocks, bl.length = 2880) (i : Nat) (hi : i < 36 * blocks.length)
    (hEnd : listStartsWith endChars (recAt blocks i) = true)
    (hBef : ∀ k < i, listStartsWith endChars (recAt blocks k) = false) :
    ∀ fuel j (st : ScanState), st.found = false → st.metadata.length = 36 * j →
      j ≤ i / 36 → i / 36 - j + 2 ≤ fuel →
      ∃ st', scanLoop blocks.flatten fuel (j + 1) st = .ok st'
        ∧ st'.metadata.length = 36 * (i / 36 + 1) := by
  intro fuel
  induction fuel with
  | zero => intro j st _ _ _ hf; omega
  | succ f ih =>
    intro j st hfound hmlen hj hfuel
    rw [scanLoop, if_neg (by rw [hfound]; simp), getMetadataBlock_eq]
    have hjlt : j < blocks.length := by omega
    rw [getDataBlock_flatten blocks hlen j]
    have hmem := getD_mem_of_lt blocks j hjlt
    obtain ⟨st1, hok, hfound1, hmeta1⟩ :=
      processRecords_full (blockRecords (blocks.getD j []))
        (blockRecords_length_80 _ (hlen _ hmem)) st
    rw [hok]
    have hm1 : st1.metadata.length = 36 * (j + 1) := by
      rw [hmeta1, List.length_append, hmlen, blockRecords_count]
      ring
    by_cases hjB : j < i / 36
    · have hf1 : st1.found = false := by
        rw [hfound1, hfound, Bool.false_or]
        exact blockHasEnd_false_of_before blocks i j hjB hBef
      exact ih (j + 1) st1 hf1 hm1 (by omega) (by omega)
    · have hjeq : j = i / 36 := by omega
      have hf1 : st1.found = true := by
        rw [hfound1, hfound, Bool.false_or, hjeq]
        exact blockHasEnd_true_at blocks i hEnd
      obtain ⟨f', rfl⟩ : ∃ f', f = f' + 1 := ⟨f - 1, by omega⟩
      refine ⟨st1, ?_, by rw [hm1, hjeq]⟩
      show scanLoop blocks.flatten (f' + 1) (j + 1 + 1) st1 = .ok st1
      rw [scanLoop, if_pos hf1]

/-- Header scanning a block-aligned buffer whose first `END` record is
at global index `i` succeeds with `36 * (i / 36 + 1)` raw records. -/
theorem getRawHeaders_endAt (blocks : List (List Nat))
    (hlen : ∀ bl ∈ blocks, bl.length = 2880) (i : Nat) (hi : i < 36 * blocks.length)
    (hEnd : listStartsWith endChars (recAt blocks i) = true)
    (hBef : ∀ k < i, listStartsWith endChars (recAt blocks k) = false) :
    ∃ st, getRawHeaders blocks.flatten = .ok st
      ∧ st.metadata.length = 36 * (i / 36 + 1) := by
  unfold getRawHeaders
  have hdiv : blocks.flatten.length / BLOCK_SIZE = blocks.length := by
    rw [flatten_uniform_length 2880 blocks hlen]
    simp [BLOCK_SIZE]
  rw [hdiv]
  exact scanLoop_endAt blocks hlen i hi hEnd hBef (blocks.length + 2) 0 _ rfl rfl
    (by omega) (by omega)

/-- C7: for every block-aligned header whose first `END` record sits at
0-based record index `i`, `getNumHeaderBlocks` returns
`ceil((i+1) * 80 / 2880)` — the scan retains the filler records of the
terminating block in the raw record list, and the block count computed
from that list equals the ceiling formula. -/
theorem c7_header_block_count (blocks : List (List Nat))
    (hlen : ∀ bl ∈ blocks, bl.length = 2880) (i : Nat) (hi : i < 36 * blocks.length)
    (hEnd : listStartsWith endChars (recAt blocks i) = true)
    (hBef : ∀ k < i, listStartsWith endChars (recAt blocks k) = false) :
    getNumHeaderBlocks blocks.flatten = .ok (((i + 1) * 80 + 2879) / 2880) := by
  obtain ⟨st, hok, hm⟩ := getRawHeaders_endAt blocks hlen i hi hEnd hBef
  unfold getNumHeaderBlocks
  rw [hok]
  show Except.ok (numBlocksN (st.metadata.length * RECORD_SIZE))
      = .ok (((i + 1) * 80 + 2879) / 2880)
  rw [hm]
  unfold numBlocksN RECORD_SIZE BLOCK_SIZE
  have h : (36 * (i / 36 + 1) * 80 + (2880 - 1)) / 2880 = ((i + 1) * 80 + 2879) / 2880 := by
    omega
  rw [h]


/-- C7 witness: the one-block header with `END` at record index 2
(`ceil(3 * 80 / 2880) = 1` header block). -/
theorem c7_header_block_count_witness :
    getNumHeaderBlocks ([unit0Header] : List (List Nat)).flatten = .ok 1 := by
  have h := c7_header_block_count [unit0Header]
    (by intro bl hbl; rw [List.mem_singleton] at hbl; subst hbl; exact unit0Header_length)
    2 (by simp) (by decide) (by decide)
  rw [show (((2 + 1) * 80 + 2879) / 2880 : Nat) = 1 from by norm_num] at h
  exact h

/-- Keyword lookup through a known scan result. -/
theorem getMetadataValue_of_scan (raw : List Nat) (st : ScanState) (key : List Char)
    (h : getRawHeaders raw = .ok st) :
    getMetadataValue raw key
      = (match mapGet st.headers key with
        | none => .error (.missingKeyword key)
        | some v => if v = [] then .error (.missingKeyword key) else .ok v) := by
  unfold getMetadataValue
  rw [h]

theorem getRawHeaders_synthFile : getRawHeaders synthFile = .ok unit0St :=
  getRawHeaders_unit0 unit1View

theorem getRawHeaders_unit1View : getRawHeaders unit1View = .ok unit1St :=
  getRawHeaders_unit1 unit1Data

theorem numAxis_synthFile : numAxis synthFile = .ok 0 := by
  unfold numAxis
  rw [getMetadataValue_of_scan synthFile unit0St naxisChars getRawHeaders_synthFile]
  decide

theorem getDataSize_synthFile : getDataSize synthFile = .ok (some 0) := by
  unfold getDataSize
  rw [numAxis_synthFile]
  rfl

theorem getNumHeaderBlocks_synthFile : getNumHeaderBlocks synthFile = .ok 1 := by
  unfold getNumHeaderBlocks
  rw [getRawHeaders_synthFile]
  decide

/-- Bind of a success reduces. -/
theorem bind_ok {α β : Type} (a : α) (f : α → Except FitsError β) :
    (Except.ok a >>= f) = f a := rfl

theorem numAxis_unit1View : numAxis unit1View = .ok 2 := by
  unfold numAxis
  rw [getMetadataValue_of_scan unit1View unit1St naxisChars getRawHeaders_unit1View]
  decide

theorem pixelDataType_unit1View : pixelDataType unit1View = .ok ['8'] := by
  unfold pixelDataType
  rw [getMetadataValue_of_scan unit1View unit1St bitpixChars getRawHeaders_unit1View]
  decide

theorem bitsPerPixel_unit1View : bitsPerPixel unit1View = .ok 8 := by
  unfold bitsPerPixel
  rw [pixelDataType_unit1View]
  decide

theorem sizeAxis_unit1View_1 : sizeAxis unit1View 1 = .ok (some 2) := by
  unfold sizeAxis
  rw [numAxis_unit1View, bind_ok]
  rw [if_neg (by norm_num : ¬(2 : ℤ) ≤ 0)]
  rw [getMetadataValue_of_scan unit1View unit1St (naxisKey 1) getRawHeaders_unit1View]
  decide

theorem sizeAxis_unit1View_2 : sizeAxis unit1View 2 = .ok (some 2) := by
  unfold sizeAxis
  rw [numAxis_unit1View, bind_ok]
  rw [if_neg (by norm_num : ¬(2 : ℤ) ≤ 0)]
  rw [getMetadataValue_of_scan unit1View unit1St (naxisKey 2) getRawHeaders_unit1View]
  decide

theorem axisLoop_unit1View : axisLoop unit1View 2 1 (some 1) = .ok (some 4) := by
  rw [show axisLoop unit1View 2 1 (some 1)
      = (sizeAxis unit1View 1 >>= fun len => axisLoop unit1View 1 2 (optMul (some 1) len))
      from rfl]
  rw [sizeAxis_unit1View_1, bind_ok]
  rw [show optMul (some 1) (some 2) = some 2 from rfl]
  rw [show axisLoop unit1View 1 2 (some 2)
      = (sizeAxis unit1View 2 >>= fun len => axisLoop unit1View 0 3 (optMul (some 2) len))
      from rfl]
  rw [sizeAxis_unit1View_2, bind_ok]
  rfl

theorem getDataSize_unit1View : getDataSize unit1View = .ok (some 4) := by
  unfold getDataSize
  rw [numAxis_unit1View, bind_ok, if_neg (by norm_num : ¬(2 : ℤ) = 0),
    bitsPerPixel_unit1View, bind_ok]
  show axisLoop unit1View 2 1 (some 1) = .ok (some 4)
  exact axisLoop_unit1View

theorem getNumHeaderBlocks_unit1View : getNumHeaderBlocks unit1View = .ok 1 := by
  unfold getNumHeaderBlocks
  rw [getRawHeaders_unit1View]
  decide

theorem getNumDataBlocks_unit1View : getNumDataBlocks unit1View = .ok (some 1) := by
  unfold getNumDataBlocks
  rw [getDataSize_unit1View]
  rfl

theorem getNumStructureBytes_unit1View :
    getNumStructureBytes unit1View = .ok (some 5760) := by
  unfold getNumStructureBytes
  rw [getNumHeaderBlocks_unit1View, bind_ok, getNumDataBlocks_unit1View, bind_ok]
  rfl

theorem getNextStructure_unit1View : getNextStructure unit1View = .ok none := by
  unfold getNextStructure
  rw [getNumStructureBytes_unit1View, bind_ok]
  show (if (unit1View.length : ℤ) > 5760 then
      Except.ok (some (unit1View.drop (normIdx unit1View.length 5760)))
    else Except.ok none) = .ok none
  rw [unit1View_length, if_neg (by norm_num)]

theorem getNumDataBlocks_synthFile : getNumDataBlocks synthFile = .ok (some 0) := by
  unfold getNumDataBlocks
  rw [getDataSize_synthFile]
  rfl

theorem getNumStructureBytes_synthFile :
    getNumStructureBytes synthFile = .ok (some 2880) := by
  unfold getNumStructureBytes
  rw [getNumHeaderBlocks_synthFile, bind_ok, getNumDataBlocks_synthFile, bind_ok]
  rfl

theorem getNextStructure_synthFile :
    getNextStructure synthFile = .ok (some unit1View) := by
  unfold getNextStructure
  rw [getNumStructureBytes_synthFile, bind_ok]
  show (if (synthFile.length : ℤ) > 2880 then
      Except.ok (some (synthFile.drop (normIdx synthFile.length 2880)))
    else Except.ok none) = .ok (some unit1View)
  rw [synthFile_length, if_pos (by norm_num)]
  rw [show normIdx 8640 2880 = 2880 from rfl]
  rw [show synthFile = unit0Header ++ unit1View from rfl,
    List.drop_left' unit0Header_length]

/-- One step of the successor walk. -/
theorem chainAux_succ (f : Nat) (cur : List Nat) (acc : List (List Nat)) :
    chainAux (f + 1) cur acc
      = (getNextStructure cur >>= fun nxt? =>
          match nxt? with
          | none => pure acc
          | some nxt => chainAux f nxt (acc ++ [nxt])) := rfl

theorem loadStructures_synthFile : loadStructures synthFile = .ok [unit1View] := by
  unfold loadStructures
  rw [synthFile_length]
  rw [show (8640 / BLOCK_SIZE + 1 : ℕ) = 3 + 1 from by norm_num [BLOCK_SIZE]]
  rw [chainAux_succ, getNextStructure_synthFile, bind_ok]
  show chainAux 3 unit1View [unit1View] = .ok [unit1View]
  rw [show (3 : ℕ) = 2 + 1 from rfl, chainAux_succ, getNextStructure_unit1View, bind_ok]
  rfl

theorem loadChain_synthFile : loadChain synthFile = .ok [synthFile, unit1View] := by
  unfold loadChain
  rw [loadStructures_synthFile]
  rfl
theorem getDataUnit_unit1View : getDataUnit unit1View = .ok unit1Data := by
  unfold getDataUnit
  rw [numAxis_unit1View, bind_ok, if_neg (by norm_num : ¬(2 : ℤ) = 0),
    getNumHeaderBlocks_unit1View, bind_ok, getNumDataBlocks_unit1View, bind_ok]
  show Except.ok (jsSubarray unit1View 2880 5760) = .ok unit1Data
  unfold jsSubarray
  rw [unit1View_length]
  rw [show normIdx 5760 2880 = 2880 from rfl, show normIdx 5760 5760 = 5760 from rfl]
  rw [show unit1View = unit1Header ++ unit1Data from rfl,
    List.drop_left' unit1Header_length]
  rw [List.take_of_length_le (by rw [unit1Data_length])]

theorem getDataValues_unit1View :
    getDataValues unit1View = .ok (unit1Data.map u8Val) := by
  unfold getDataValues
  rw [getDataUnit_unit1View, bind_ok, pixelDataType_unit1View, bind_ok,
    bitsPerPixel_unit1View, bind_ok]
  show decodeFlat u8Chars 1 unit1Data = .ok (unit1Data.map u8Val)
  exact decodeFlat_u8 unit1Data

theorem getDataValuesArray_unit1View :
    getDataValuesArray unit1View
      = .ok [[some (JsNum.num 10), some (JsNum.num 20)],
          [some (JsNum.num 30), some (JsNum.num 40)]] := by
  unfold getDataValuesArray
  rw [sizeAxis_unit1View_1, bind_ok, sizeAxis_unit1View_2, bind_ok,
    getDataValues_unit1View, bind_ok]
  decide

/-- C1: loading the synthetic two-unit file materializes exactly two
units — the primary unit (the whole buffer) and its successor at byte
offset 2880 — and the 2-D decode of the unit at index 1 is
[[10, 20], [30, 40]] (the block-padding samples beyond the declared
2x2 array are cut off by the reshape loops). -/
theorem c1_load_chain_and_decode :
    loadChain synthFile = .ok [synthFile, unit1View]
    ∧ getDataValuesArray unit1View
      = .ok [[some (JsNum.num 10), some (JsNum.num 20)],
          [some (JsNum.num 30), some (JsNum.num 40)]] :=
  ⟨loadChain_synthFile, getDataValuesArray_unit1View⟩

theorem numAxis_negAxis : numAxis negAxisUnit = .ok 1 := by
  unfold numAxis
  rw [getMetadataValue_of_scan negAxisUnit negAxisSt naxisChars getRawHeaders_negAxis]
  decide

theorem pixelDataType_negAxis : pixelDataType negAxisUnit = .ok ['8'] := by
  unfold pixelDataType
  rw [getMetadataValue_of_scan negAxisUnit negAxisSt bitpixChars getRawHeaders_negAxis]
  decide

theorem bitsPerPixel_negAxis : bitsPerPixel negAxisUnit = .ok 8 := by
  unfold bitsPerPixel
  rw [pixelDataType_negAxis]
  decide

theorem sizeAxis_negAxis_1 : sizeAxis negAxisUnit 1 = .ok (some (-3000)) := by
  unfold sizeAxis
  rw [numAxis_negAxis, bind_ok]
  rw [if_neg (by norm_num : ¬(1 : ℤ) ≤ 0)]
  rw [getMetadataValue_of_scan negAxisUnit negAxisSt (naxisKey 1) getRawHeaders_negAxis]
  decide

theorem getDataSize_negAxis : getDataSize negAxisUnit = .ok (some (-3000)) := by
  unfold getDataSize
  rw [numAxis_negAxis, bind_ok, if_neg (by norm_num : ¬(1 : ℤ) = 0),
    bitsPerPixel_negAxis, bind_ok]
  show axisLoop negAxisUnit 1 1 (some 1) = .ok (some (-3000))
  rw [show axisLoop negAxisUnit 1 1 (some 1)
      = (sizeAxis negAxisUnit 1 >>= fun len => axisLoop negAxisUnit 0 2 (optMul (some 1) len))
      from rfl]
  rw [sizeAxis_negAxis_1, bind_ok]
  rfl

theorem getNumHeaderBlocks_negAxis : getNumHeaderBlocks negAxisUnit = .ok 1 := by
  unfold getNumHeaderBlocks
  rw [getRawHeaders_negAxis]
  decide

theorem getNumDataBlocks_negAxis : getNumDataBlocks negAxisUnit = .ok (some (-1)) := by
  unfold getNumDataBlocks
  rw [getDataSize_negAxis]
  rfl

theorem getNumStructureBytes_negAxis :
    getNumStructureBytes negAxisUnit = .ok (some 0) := by
  unfold getNumStructureBytes
  rw [getNumHeaderBlocks_negAxis, bind_ok, getNumDataBlocks_negAxis, bind_ok]
  rfl

theorem getNextStructure_negAxis :
    getNextStructure negAxisUnit = .ok (some negAxisUnit) := by
  unfold getNextStructure
  rw [getNumStructureBytes_negAxis, bind_ok]
  show (if (negAxisUnit.length : ℤ) > 0 then
      Except.ok (some (negAxisUnit.drop (normIdx negAxisUnit.length 0)))
    else Except.ok none) = .ok (some negAxisUnit)
  rw [negAxisUnit_length, if_pos (by norm_num)]
  rw [show normIdx 2880 0 = 0 from rfl, List.drop_zero]

/-- A successfully processed record is appended to the raw list (no
length hypothesis needed: failure is the only other outcome). -/
theorem processEntry_metadata (st st1 : ScanState) (r : List Char)
    (h : processEntry st r = .ok st1) : st1.metadata = st.metadata ++ [r] := by
  unfold processEntry at h
  by_cases hl : r.length = 80
  · rw [if_pos hl] at h
    by_cases hv : isValidKeyword (r.take 8)
    · rw [if_pos hv] at h
      by_cases hc : isCommentaryKeyword (jsTrim (r.take 8))
      · rw [if_pos hc] at h
        cases h
        rfl
      · rw [if_neg hc] at h
        cases h
        rfl
    · rw [if_neg hv] at h
      cases h
      rfl
  · rw [if_neg hl] at h
    cases h

/-- A successful record pass appends exactly the processed records. -/
theorem processRecords_count (rs : List (List Char)) :
    ∀ st st', processRecords st rs = .ok st' →
      st'.metadata.length = st.metadata.length + rs.length := by
  induction rs with
  | nil =>
    intro st st' h
    cases h
    simp
  | cons r rs ih =>
    intro st st' h
    unfold processRecords at h
    cases hpe : processEntry st r with
    | error e => rw [hpe] at h; exact Except.noConfusion h
    | ok st1 =>
      rw [hpe] at h
      have h1 := processEntry_metadata st st1 r hpe
      have h2 := ih st1 st' h
      rw [h2, h1]
      simp
      omega

/-- Every metadata block splits into 36 records. -/
theorem getMetadataBlock_count (raw : List Nat) (b : Nat) :
    (getMetadataBlock raw b).length = 36 := by
  simp [getMetadataBlock]

/-- A successful scan either started with `found` already set, or
pushed a positive whole number of 36-record blocks. -/
theorem scanLoop_count (raw : List Nat) :
    ∀ fuel b (st st' : ScanState), scanLoop raw fuel b st = .ok st' →
      (st.found = true ∧ st' = st)
      ∨ ∃ m, 1 ≤ m ∧ st'.metadata.length = st.metadata.length + 36 * m := by
  intro fuel
  induction fuel with
  | zero => intro b st st' h; exact Except.noConfusion h
  | succ f ih =>
    intro b st st' h
    unfold scanLoop at h
    by_cases hf : st.found = true
    · rw [if_pos hf] at h
      cases h
      exact Or.inl ⟨hf, rfl⟩
    · rw [if_neg hf] at h
      cases hpr : processRecords st (getMetadataBlock raw b) with
      | error e => rw [hpr] at h; exact Except.noConfusion h
      | ok st1 =>
        rw [hpr] at h
        have hc := processRecords_count (getMetadataBlock raw b) st st1 hpr
        rw [getMetadataBlock_count] at hc
        rcases ih (b + 1) st1 st' h with ⟨_, rfl⟩ | ⟨m, hm, hlen⟩
        · exact Or.inr ⟨1, le_rfl, by omega⟩
        · exact Or.inr ⟨m + 1, by omega, by omega⟩

/-- A successful header scan pushes a positive multiple of 36 raw
records. -/
theorem getRawHeaders_mult36 (raw : List Nat) (st : ScanState)
    (h : getRawHeaders raw = .ok st) : ∃ m, 1 ≤ m ∧ st.metadata.length = 36 * m := by
  unfold getRawHeaders at h
  rcases scanLoop_count raw _ 1 _ st h with ⟨hfound, _⟩ | ⟨m, hm, hlen⟩
  · exact absurd hfound (by simp)
  · exact ⟨m, hm, by simpa using hlen⟩

/-- A successful header-block count is at least one block. -/
theorem getNumHeaderBlocks_pos (raw : List Nat) (hb : Nat)
    (hhb : getNumHeaderBlocks raw = .ok hb) : 1 ≤ hb := by
  unfold getNumHeaderBlocks at hhb
  cases hscan : getRawHeaders raw with
  | error e => rw [hscan] at hhb; exact Except.noConfusion hhb
  | ok st =>
    rw [hscan] at hhb
    have heq : numBlocksN (st.metadata.length * RECORD_SIZE) = hb := by
      cases hhb
      rfl
    obtain ⟨m, hm, hlen⟩ := getRawHeaders_mult36 raw st hscan
    rw [hlen] at heq
    unfold numBlocksN RECORD_SIZE BLOCK_SIZE at heq
    omega

/-- The ceiling block count of a nonnegative size is nonnegative. -/
theorem numBlocksI_nonneg (d : ℤ) (hd : 0 ≤ d) : 0 ≤ numBlocksI d := by
  unfold numBlocksI BLOCK_SIZE
  exact Int.fdiv_nonneg (by omega) (by norm_num)

/-- C9 (amended): for a unit whose header scan and size computation
succeed AND whose declared data size is nonnegative, the successor
offset is at least one header block (2880 bytes), so the successor
view, when it exists, is at least 2880 bytes shorter than its
predecessor. Without the nonnegativity assumption the claim fails (see
the counterexample): a negative size makes the offset 0 or negative
and the walk need not shrink. -/
theorem c9_successor_offset (raw : List Nat) (hb : Nat) (d : ℤ)
    (hhb : getNumHeaderBlocks raw = .ok hb)
    (hd : getDataSize raw = .ok (some d)) (hd0 : 0 ≤ d) :
    getNumStructureBytes raw = .ok (some (((hb : ℤ) + numBlocksI d) * 2880))
    ∧ 2880 ≤ ((hb : ℤ) + numBlocksI d) * 2880
    ∧ (∀ nxt, getNextStructure raw = .ok (some nxt) →
        nxt.length + 2880 ≤ raw.length) := by
  have hdb : getNumDataBlocks raw = .ok (some (numBlocksI d)) := by
    unfold getNumDataBlocks
    rw [hd]
    rfl
  have hbytes : getNumStructureBytes raw = .ok (some (((hb : ℤ) + numBlocksI d) * 2880)) := by
    unfold getNumStructureBytes
    rw [hhb, bind_ok, hdb, bind_ok]
    rfl
  have hb1 : 1 ≤ hb := getNumHeaderBlocks_pos raw hb hhb
  have hdb0 : 0 ≤ numBlocksI d := numBlocksI_nonneg d hd0
  have hoff : 2880 ≤ ((hb : ℤ) + numBlocksI d) * 2880 := by
    have h1 : (1 : ℤ) ≤ (hb : ℤ) + numBlocksI d := by omega
    nlinarith
  refine ⟨hbytes, hoff, ?_⟩
  intro nxt h
  unfold getNextStructure at h
  rw [hbytes, bind_ok] at h
  have h2 : (if (raw.length : ℤ) > ((hb : ℤ) + numBlocksI d) * 2880 then
      (pure (some (raw.drop (normIdx raw.length (((hb : ℤ) + numBlocksI d) * 2880))))
        : Except FitsError (Option (List Nat)))
    else pure none) = Except.ok (some nxt) := h
  by_cases hgt : (raw.length : ℤ) > ((hb : ℤ) + numBlocksI d) * 2880
  · rw [if_pos hgt] at h2
    have hnxt : nxt = raw.drop (normIdx raw.length (((hb : ℤ) + numBlocksI d) * 2880)) := by
      cases h2
      rfl
    rw [hnxt, List.length_drop]
    unfold normIdx
    rw [if_neg (by omega)]
    omega
  · rw [if_neg hgt] at h2
    cases h2

/-- C9 counterexample: on the concrete single-block unit whose header
declares `NAXIS1 = -3000`, the header scan and size computation
succeed, yet the successor offset is 0 — not at least 2880 — and the
successor view is the unit itself, so the chain walk of
`PrimaryHDU.load` does not terminate. -/
theorem c9_counterexample :
    getDataSize negAxisUnit = .ok (some (-3000))
    ∧ getNumStructureBytes negAxisUnit = .ok (some 0)
    ∧ getNextStructure negAxisUnit = .ok (some negAxisUnit) :=
  ⟨getDataSize_negAxis, getNumStructureBytes_negAxis, getNextStructure_negAxis⟩

/-- C9 witness: the amended theorem applied to the synthetic two-unit
file's primary unit (data size 0): the offset is exactly one header
block and the successor view is 2880 bytes shorter. -/
theorem c9_successor_offset_witness :
    2880 ≤ ((1 : ℤ) + numBlocksI 0) * 2880
    ∧ unit1View.length + 2880 ≤ synthFile.length := by
  have h := c9_successor_offset synthFile 1 0 getNumHeaderBlocks_synthFile
    getDataSize_synthFile (by norm_num)
  exact ⟨h.2.1, h.2.2 unit1View getNextStructure_synthFile⟩

/-- Length of a subarray with nonnegative, ordered, in-range indexes. -/
theorem jsSubarray_length_of (raw : List Nat) (s e : ℤ) (hs : 0 ≤ s) (he : s ≤ e)
    (hle : e.toNat ≤ raw.length) : (jsSubarray raw s e).length = e.toNat - s.toNat := by
  unfold jsSubarray normIdx
  rw [if_neg (by omega : ¬s < 0), if_neg (by omega : ¬e < 0)]
  simp only [List.length_take, List.length_drop]
  omega

/-- The u8 decode of a chunk list has one sample per byte. -/
theorem length_map_eq {α β : Type} (f : α → β) (l : List α) :
    (l.map f).length = l.length := List.length_map l f

/-- C8: for a unit with `NAXIS > 0`, a decodable `BITPIX` encoding
(8, 32 or -32), a nonnegative declared data size, and a buffer long
enough to hold the header blocks plus the block-padded data region,
`getDataValues` succeeds and the flat decoded sequence has exactly
`(dataBlockCount * 2880) / (bitsPerPixel / 8)` samples: the loop
decodes the entire block-padded region, padding bytes included, so the
sample count can exceed the product of the axis lengths. -/
theorem c8_padded_decode_length (raw : List Nat) (n : ℤ) (dt : List Char) (bpp : Nat)
    (d : ℤ) (hb : Nat)
    (hn : numAxis raw = .ok n) (hn0 : 0 < n)
    (hdt : pixelDataType raw = .ok dt)
    (hdec : dt = u8Chars ∨ dt = s32Chars ∨ dt = f32Chars)
    (hbpp : bitsPerPixel raw = .ok bpp)
    (hd : getDataSize raw = .ok (some d)) (hd0 : 0 ≤ d)
    (hhb : getNumHeaderBlocks raw = .ok hb)
    (hlen : (hb + (numBlocksI d).toNat) * 2880 ≤ raw.length) :
    ∃ vs, getDataValues raw = .ok vs
      ∧ vs.length = ((numBlocksI d).toNat * 2880) / (bpp / 8) := by
  have hdb : getNumDataBlocks raw = .ok (some (numBlocksI d)) := by
    unfold getNumDataBlocks
    rw [hd]
    rfl
  have hdb0 : 0 ≤ numBlocksI d := numBlocksI_nonneg d hd0
  have hgdu : getDataUnit raw
      = .ok (jsSubarray raw ((hb : ℤ) * (BLOCK_SIZE : ℤ))
          (((hb : ℤ) + numBlocksI d) * (BLOCK_SIZE : ℤ))) := by
    unfold getDataUnit
    rw [hn, bind_ok, if_neg (by omega : ¬n = 0), hhb, bind_ok, hdb, bind_ok]
    rfl
  have hreg : (jsSubarray raw ((hb : ℤ) * (BLOCK_SIZE : ℤ))
      (((hb : ℤ) + numBlocksI d) * (BLOCK_SIZE : ℤ))).length
      = (numBlocksI d).toNat * 2880 := by
    rw [jsSubarray_length_of raw _ _ (by unfold BLOCK_SIZE; positivity)
      (by unfold BLOCK_SIZE; nlinarith) (by unfold BLOCK_SIZE; omega)]
    unfold BLOCK_SIZE
    omega
  have hdvd : (4 : ℕ) ∣ (jsSubarray raw ((hb : ℤ) * (BLOCK_SIZE : ℤ))
      (((hb : ℤ) + numBlocksI d) * (BLOCK_SIZE : ℤ))).length := by
    rw [hreg]
    exact ⟨(numBlocksI d).toNat * 720, by ring⟩
  rcases hdec with rfl | rfl | rfl
  · have hbpp8 : bitsPerPixel raw = .ok 8 := by
      unfold bitsPerPixel
      rw [hdt, bind_ok]
      decide
    have hbppv : bpp = 8 := by
      rw [hbpp8] at hbpp
      exact (Except.ok.inj hbpp).symm
    subst hbppv
    refine ⟨(jsSubarray raw ((hb : ℤ) * (BLOCK_SIZE : ℤ))
        (((hb : ℤ) + numBlocksI d) * (BLOCK_SIZE : ℤ))).map u8Val, ?_, ?_⟩
    · unfold getDataValues
      rw [hgdu, bind_ok, hdt, bind_ok, hbpp8, bind_ok]
      rw [show (8 / 8 : ℕ) = 1 from rfl]
      exact decodeFlat_u8 _
    · rw [length_map_eq, hreg]
      simp
  · have hbpp32 : bitsPerPixel raw = .ok 32 := by
      unfold bitsPerPixel
      rw [hdt, bind_ok]
      decide
    have hbppv : bpp = 32 := by
      rw [hbpp32] at hbpp
      exact (Except.ok.inj hbpp).symm
    subst hbppv
    refine ⟨(chunkFour (jsSubarray raw ((hb : ℤ) * (BLOCK_SIZE : ℤ))
        (((hb : ℤ) + numBlocksI d) * (BLOCK_SIZE : ℤ)))).map s32Val, ?_, ?_⟩
    · unfold getDataValues
      rw [hgdu, bind_ok, hdt, bind_ok, hbpp32, bind_ok]
      rw [show (32 / 8 : ℕ) = 4 from rfl]
      exact decodeFlat_s32 _ hdvd
    · rw [length_map_eq, chunkFour_length, hreg]
  · have hbpp32 : bitsPerPixel raw = .ok 32 := by
      unfold bitsPerPixel
      rw [hdt, bind_ok]
      decide
    have hbppv : bpp = 32 := by
      rw [hbpp32] at hbpp
      exact (Except.ok.inj hbpp).symm
    subst hbppv
    refine ⟨(chunkFour (jsSubarray raw ((hb : ℤ) * (BLOCK_SIZE : ℤ))
        (((hb : ℤ) + numBlocksI d) * (BLOCK_SIZE : ℤ)))).map float32OfBE, ?_, ?_⟩
    · unfold getDataValues
      rw [hgdu, bind_ok, hdt, bind_ok, hbpp32, bind_ok]
      rw [show (32 / 8 : ℕ) = 4 from rfl]
      exact decodeFlat_f32 _ hdvd
    · rw [length_map_eq, chunkFour_length, hreg]

/-- C8 witness: the second fixture unit (`NAXIS = 2`, `BITPIX = 8`,
data size 4) decodes to one full padded block of 2880 samples. -/
theorem c8_padded_decode_length_witness :
    ∃ vs, getDataValues unit1View = .ok vs
      ∧ vs.length = ((numBlocksI 4).toNat * 2880) / (8 / 8) :=
  c8_padded_decode_length unit1View 2 u8Chars 8 4 1
    numAxis_unit1View (by decide) pixelDataType_unit1View (Or.inl rfl)
    bitsPerPixel_unit1View getDataSize_unit1View (by decide)
    getNumHeaderBlocks_unit1View (by rw [unit1View_length]; decide)
